import Mathlib

/-!
Verification of the japa-openapi-assertions core against its specification.

The embedding is a shallow one: JavaScript strings are modelled as `List Char`
(named `Str`), JSON-like runtime values as the inductive `Json`, and JS objects
as association lists whose lookup returns the first binding.  Each definition
mirrors one function of the TypeScript source (`src/path_matcher.ts`,
`src/schema_builder.ts`, the response validator, and the coverage tracker).
-/

set_option maxHeartbeats 1000000

abbrev Str := List Char

/-! ## Path matcher (src/path_matcher.ts) -/

/-- JS `s.split(sep)` for a single-character separator. -/
def splitChar (sep : Char) : Str → List Str
  | [] => [[]]
  | c :: rest =>
    let r := splitChar sep rest
    if c = sep then [] :: r
    else (c :: r.headD []) :: r.tail

/-- `path.split('/').filter(Boolean)`: split on `/` and drop empty segments. -/
def segmentsOf (s : Str) : List Str :=
  (splitChar '/' s).filter (fun t => !t.isEmpty)

/-- JS regex `\w`: ASCII letters, digits and underscore. -/
def isWordChar (c : Char) : Bool :=
  c.isAlpha || c.isDigit || c = '_'

/-- The capture of `specSegment.match(/^\{(\w+)\}$/)`: `some name` when the
segment is `{name}` with a non-empty all-word-character name, else `none`. -/
def paramName (s : Str) : Option Str :=
  let inner := (s.drop 1).dropLast
  if s.head? = some '{' && s.getLast? = some '}'
      && !inner.isEmpty && inner.all isWordChar
  then some inner else none

/-- JS object assignment `params[name] = value`: overwrite in place when the
key exists, otherwise append. -/
def setParam (ps : List (Str × Str)) (k v : Str) : List (Str × Str) :=
  if ps.any (fun p => p.1 = k)
  then ps.map (fun p => if p.1 = k then (k, v) else p)
  else ps ++ [(k, v)]

/-- The segment loop of `tryMatch`: walk the spec and request segments in
lock-step, accumulating parameter bindings and the score. -/
def matchSegments : List Str → List Str → List (Str × Str) → Nat →
    Option (List (Str × Str) × Nat)
  | [], [], params, score => some (params, score)
  | specSeg :: ss, reqSeg :: rs, params, score =>
    match paramName specSeg with
    | some name => matchSegments ss rs (setParam params name reqSeg) (score + 1)
    | none =>
      if specSeg = reqSeg then matchSegments ss rs params (score + 10)
      else none
  | _, _, _, _ => none

structure TryMatchResult where
  specPath : Str
  params : List (Str × Str)
  score : Nat
deriving DecidableEq, Repr

/-- `tryMatch(requestPath, specPath)` from src/path_matcher.ts. -/
def tryMatch (requestPath specPath : Str) : Option TryMatchResult :=
  let requestSegments := segmentsOf requestPath
  let specSegments := segmentsOf specPath
  if requestSegments.length ≠ specSegments.length then none
  else
    (matchSegments specSegments requestSegments [] 0).map
      (fun pr => ⟨specPath, pr.1, pr.2⟩)

structure PathMatchResult where
  matched : Str
  params : List (Str × Str)
deriving DecidableEq, Repr

/-- The normalisation step of `matchPath`:
`requestPath.split('?')[0].replace(/\/$/, '') || '/'`. -/
def cleanPath (requestPath : Str) : Str :=
  let noQuery := requestPath.takeWhile (fun c => c ≠ '?')
  let stripped := if noQuery.getLast? = some '/' then noQuery.dropLast else noQuery
  if stripped.isEmpty then ['/'] else stripped

/-- Comparator `(a, b) => b.score - a.score` of the JS sort, as a boolean
"a may stay before b" relation: the comparator is ≤ 0 iff `b.score ≤ a.score`. -/
def scoreDesc (a b : TryMatchResult) : Bool :=
  b.score ≤ a.score

/-- Insertion step of the stable sort modelling `Array.prototype.sort`. -/
def insertDesc (a : TryMatchResult) :
    List TryMatchResult → List TryMatchResult
  | [] => [a]
  | b :: bs => if scoreDesc a b then a :: b :: bs else b :: insertDesc a bs

/-- `matches.sort((a, b) => b.score - a.score)`: JS `Array.prototype.sort` is
a stable sort (ECMA-262); modelled as a stable insertion sort with the same
comparator, which keeps earlier elements first on ties. -/
def sortByScoreDesc : List TryMatchResult → List TryMatchResult
  | [] => []
  | a :: l => insertDesc a (sortByScoreDesc l)

/-- `matchPath(requestPath, specPaths)` from src/path_matcher.ts. -/
def matchPath (requestPath : Str) (specPaths : List Str) :
    Option PathMatchResult :=
  let cp := cleanPath requestPath
  let found := specPaths.filterMap (fun sp => tryMatch cp sp)
  match (sortByScoreDesc found).head? with
  | none => none
  | some m => some ⟨m.specPath, m.params⟩

example : matchPath "/users/me".toList ["/users/{id}".toList, "/users/me".toList]
    = some ⟨"/users/me".toList, []⟩ := by decide

example : matchPath "/pets/123".toList ["/pets/{petId}".toList]
    = some ⟨"/pets/{petId}".toList, [("petId".toList, "123".toList)]⟩ := by decide

example : matchPath "/pets?x=1".toList ["/pets".toList]
    = some ⟨"/pets".toList, []⟩ := by decide

example : matchPath "/pets/".toList ["/pets".toList]
    = some ⟨"/pets".toList, []⟩ := by decide

/-! ## Properties of the stable sort used by matchPath -/

theorem sortByScoreDesc_head :
    ∀ (l : List TryMatchResult), l ≠ [] →
    ∃ m l₁ l₂, l = l₁ ++ m :: l₂ ∧ (sortByScoreDesc l).head? = some m ∧
      (∀ x ∈ l, x.score ≤ m.score) ∧ (∀ x ∈ l₁, x.score < m.score)
  | [], h => absurd rfl h
  | [a], _ => ⟨a, [], [], rfl, rfl, by simp, by simp⟩
  | a :: b :: l, _ => by
    obtain ⟨m, l₁, l₂, heq, hhead, hmax, hstrict⟩ :=
      sortByScoreDesc_head (b :: l) (by simp)
    obtain ⟨t, ht⟩ : ∃ t, sortByScoreDesc (b :: l) = m :: t := by
      cases hsort : sortByScoreDesc (b :: l) with
      | nil => rw [hsort] at hhead; simp at hhead
      | cons x t =>
        rw [hsort] at hhead
        simp at hhead
        exact ⟨t, by rw [hhead]⟩
    by_cases hc : scoreDesc a m
    · refine ⟨a, [], b :: l, rfl, ?_, ?_, by simp⟩
      · show (insertDesc a (sortByScoreDesc (b :: l))).head? = some a
        rw [ht]
        simp [insertDesc, hc]
      · intro x hx
        rcases List.mem_cons.mp hx with h | h
        · simp [h]
        · have hm : m.score ≤ a.score := by simpa [scoreDesc] using hc
          exact le_trans (hmax x h) hm
    · refine ⟨m, a :: l₁, l₂, by rw [heq]; simp, ?_, ?_, ?_⟩
      · show (insertDesc a (sortByScoreDesc (b :: l))).head? = some m
        rw [ht]
        simp [insertDesc, hc]
      · intro x hx
        rcases List.mem_cons.mp hx with h | h
        · subst h
          have : ¬ m.score ≤ x.score := by simpa [scoreDesc] using hc
          omega
        · exact hmax x h
      · intro x hx
        rcases List.mem_cons.mp hx with h | h
        · subst h
          have : ¬ m.score ≤ x.score := by simpa [scoreDesc] using hc
          omega
        · exact hstrict x h

/-- C5: among all accepted candidates, matchPath returns the one with the
strictly highest cumulative score, and on ties the earliest candidate in the
list wins: the accepted-match list decomposes as `ms₁ ++ m :: ms₂` where `m`
is the returned match, every accepted match scores at most `m.score`, and
every earlier accepted match scores strictly less. -/
theorem C5_best_match (p : Str) (T : List Str) (r : PathMatchResult)
    (h : matchPath p T = some r) :
    ∃ m ms₁ ms₂,
      T.filterMap (fun sp => tryMatch (cleanPath p) sp) = ms₁ ++ m :: ms₂ ∧
      r = ⟨m.specPath, m.params⟩ ∧
      (∀ x ∈ T.filterMap (fun sp => tryMatch (cleanPath p) sp),
        x.score ≤ m.score) ∧
      (∀ x ∈ ms₁, x.score < m.score) := by
  have h' : (match (sortByScoreDesc
      (T.filterMap (fun sp => tryMatch (cleanPath p) sp))).head? with
    | none => none
    | some m => some (⟨m.specPath, m.params⟩ : PathMatchResult)) = some r := h
  clear h
  cases hh : (sortByScoreDesc
      (T.filterMap (fun sp => tryMatch (cleanPath p) sp))).head? with
  | none => rw [hh] at h'; exact absurd h' (by simp)
  | some m0 =>
    rw [hh] at h'
    simp only [Option.some.injEq] at h'
    have hne : T.filterMap (fun sp => tryMatch (cleanPath p) sp) ≠ [] := by
      intro hnil
      rw [hnil] at hh
      simp [sortByScoreDesc] at hh
    obtain ⟨m, l₁, l₂, heq, hhead, hmax, hstrict⟩ :=
      sortByScoreDesc_head _ hne
    rw [hh] at hhead
    simp only [Option.some.injEq] at hhead
    subst hhead
    exact ⟨m0, l₁, l₂, heq, h'.symm, hmax, hstrict⟩

/-- Witness for C5 at the claim's own example: templates `/users/{id}` and
`/users/me` against observed `/users/me`. -/
theorem C5_best_match_witness :
    matchPath "/users/me".toList ["/users/{id}".toList, "/users/me".toList]
      = some ⟨"/users/me".toList, []⟩ ∧
    ∃ m ms₁ ms₂,
      ["/users/{id}".toList, "/users/me".toList].filterMap
        (fun sp => tryMatch (cleanPath "/users/me".toList) sp) = ms₁ ++ m :: ms₂ ∧
      (⟨"/users/me".toList, []⟩ : PathMatchResult) = ⟨m.specPath, m.params⟩ ∧
      (∀ x ∈ ["/users/{id}".toList, "/users/me".toList].filterMap
        (fun sp => tryMatch (cleanPath "/users/me".toList) sp),
        x.score ≤ m.score) ∧
      (∀ x ∈ ms₁, x.score < m.score) :=
  ⟨by decide, C5_best_match "/users/me".toList
    ["/users/{id}".toList, "/users/me".toList] ⟨"/users/me".toList, []⟩ (by decide)⟩

/-! ## C6: characterization of tryMatch -/

/-- Acceptance condition for one spec/request segment pair: parameter form or
exact literal equality. -/
def segOk (specSeg reqSeg : Str) : Bool :=
  (paramName specSeg).isSome || specSeg = reqSeg

theorem matchSegments_isSome :
    ∀ (ss rs : List Str) (params : List (Str × Str)) (score : Nat),
    (matchSegments ss rs params score).isSome = true ↔
      (ss.length = rs.length ∧ ∀ pr ∈ ss.zip rs, segOk pr.1 pr.2 = true)
  | [], [], params, score => by simp [matchSegments]
  | [], r :: rs, params, score => by simp [matchSegments]
  | s :: ss, [], params, score => by simp [matchSegments]
  | s :: ss, r :: rs, params, score => by
    cases hp : paramName s with
    | some n =>
      simp only [matchSegments, hp]
      rw [matchSegments_isSome]
      simp [segOk, hp]
    | none =>
      by_cases hsr : s = r
      · simp only [matchSegments, hp, if_pos hsr]
        rw [matchSegments_isSome]
        simp [segOk, hp, hsr]
      · simp only [matchSegments, hp, if_neg hsr]
        simp [segOk, hp, hsr]

/-- When the key is fresh, `params[name] = v` is a plain append. -/
theorem setParam_of_fresh (ps : List (Str × Str)) (k v : Str)
    (h : ∀ p ∈ ps, p.1 ≠ k) : setParam ps k v = ps ++ [(k, v)] := by
  unfold setParam
  rw [if_neg]
  simp only [List.any_eq_true, not_exists, not_and]
  intro p hp
  simpa using h p hp

/-- Parameter names of a spec path's segments, in order. -/
def paramNamesOf (ss : List Str) : List Str :=
  ss.filterMap paramName

/-- The bindings produced by a successful segment walk, when the parameter
names are pairwise distinct and fresh for the accumulator: each parameter
segment contributes the observed segment verbatim, in order. -/
theorem matchSegments_params :
    ∀ (ss rs : List Str) (params : List (Str × Str)) (score : Nat)
      (res : List (Str × Str) × Nat),
    matchSegments ss rs params score = some res →
    (∀ seg ∈ ss, ∀ n, paramName seg = some n → ∀ p ∈ params, p.1 ≠ n) →
    (paramNamesOf ss).Nodup →
    res.1 = params ++
      (ss.zip rs).filterMap (fun pr => (paramName pr.1).map (fun n => (n, pr.2)))
  | [], [], params, score, res, hres, _, _ => by
    simp [matchSegments] at hres
    simp [← hres]
  | [], r :: rs, params, score, res, hres, _, _ => by
    simp [matchSegments] at hres
  | s :: ss, [], params, score, res, hres, _, _ => by
    simp [matchSegments] at hres
  | s :: ss, r :: rs, params, score, res, hres, hfresh, hnodup => by
    cases hp : paramName s with
    | some n =>
      simp only [matchSegments, hp] at hres
      have hfresh_head : ∀ p ∈ params, p.1 ≠ n :=
        hfresh s (List.mem_cons_self s _) n hp
      have hset : setParam params n r = params ++ [(n, r)] :=
        setParam_of_fresh params n r (fun p hp' => hfresh_head p hp')
      rw [hset] at hres
      have hnodup' : (paramNamesOf ss).Nodup := by
        have : paramNamesOf (s :: ss) = n :: paramNamesOf ss := by
          simp [paramNamesOf, List.filterMap_cons, hp]
        rw [this] at hnodup
        exact hnodup.of_cons
      have hn_not_in : n ∉ paramNamesOf ss := by
        have : paramNamesOf (s :: ss) = n :: paramNamesOf ss := by
          simp [paramNamesOf, List.filterMap_cons, hp]
        rw [this] at hnodup
        exact (List.nodup_cons.mp hnodup).1
      have hfresh' : ∀ seg ∈ ss, ∀ n' , paramName seg = some n' →
          ∀ p ∈ params ++ [(n, r)], p.1 ≠ n' := by
        intro seg hseg n' hn' p hpmem
        rcases List.mem_append.mp hpmem with hin | hin
        · exact hfresh seg (List.mem_cons_of_mem s hseg) n' hn' p hin
        · simp only [List.mem_singleton] at hin
          intro hcontra
          have hnn : n' = n := by rw [← hcontra, hin]
          exact hn_not_in (List.mem_filterMap.mpr ⟨seg, hseg, by rw [hn', hnn]⟩)
      have := matchSegments_params ss rs (params ++ [(n, r)]) (score + 1)
        res hres hfresh' hnodup'
      rw [this]
      simp [List.zip_cons_cons, List.filterMap_cons, hp]
    | none =>
      by_cases hsr : s = r
      · simp only [matchSegments, hp, if_pos hsr] at hres
        have hnodup' : (paramNamesOf ss).Nodup := by
          have : paramNamesOf (s :: ss) = paramNamesOf ss := by
            simp [paramNamesOf, List.filterMap_cons, hp]
          rwa [this] at hnodup
        have hfresh' : ∀ seg ∈ ss, ∀ n', paramName seg = some n' →
            ∀ p ∈ params, p.1 ≠ n' := by
          intro seg hseg n' hn'
          exact hfresh seg (List.mem_cons_of_mem s hseg) n' hn'
        have := matchSegments_params ss rs params (score + 10) res hres
          hfresh' hnodup'
        rw [this]
        simp [List.zip_cons_cons, List.filterMap_cons, hp]
      · simp only [matchSegments, hp, if_neg hsr] at hres
        exact Option.noConfusion hres

/-- C6: a single candidate matches exactly when the segment counts agree and
each spec segment is a `{name}` parameter (binding the observed segment
verbatim, in order) or is character-for-character equal to the observed
segment; and when no candidate matches, matchPath returns none. -/
theorem C6_tryMatch_characterization (p s p₀ : Str) (T : List Str) :
    ((∃ r, tryMatch p s = some r) ↔
      ((segmentsOf p).length = (segmentsOf s).length ∧
        ∀ pr ∈ (segmentsOf s).zip (segmentsOf p), segOk pr.1 pr.2 = true)) ∧
    (∀ r, tryMatch p s = some r →
      (paramNamesOf (segmentsOf s)).Nodup →
      r.specPath = s ∧
      r.params = ((segmentsOf s).zip (segmentsOf p)).filterMap
        (fun pr => (paramName pr.1).map (fun n => (n, pr.2)))) ∧
    ((∀ t ∈ T, tryMatch (cleanPath p₀) t = none) → matchPath p₀ T = none) := by
  refine ⟨?_, ?_, ?_⟩
  · unfold tryMatch
    by_cases hlen : (segmentsOf p).length = (segmentsOf s).length
    · rw [if_neg (by omega)]
      constructor
      · intro ⟨r, hr⟩
        refine ⟨hlen, ?_⟩
        have : (matchSegments (segmentsOf s) (segmentsOf p) [] 0).isSome = true := by
          cases hms : matchSegments (segmentsOf s) (segmentsOf p) [] 0 with
          | none => rw [hms] at hr; simp at hr
          | some v => simp
        exact ((matchSegments_isSome _ _ _ _).mp this).2
      · intro ⟨_, hall⟩
        have hsome : (matchSegments (segmentsOf s) (segmentsOf p) [] 0).isSome = true :=
          (matchSegments_isSome _ _ _ _).mpr ⟨hlen.symm, hall⟩
        obtain ⟨v, hms⟩ := Option.isSome_iff_exists.mp hsome
        exact ⟨⟨s, v.1, v.2⟩, by rw [hms]; rfl⟩
    · rw [if_pos (by omega)]
      constructor
      · intro ⟨r, hr⟩
        simp at hr
      · intro hcon
        exact absurd hcon.1 hlen
  · intro r hr hnodup
    unfold tryMatch at hr
    by_cases hlen : (segmentsOf p).length = (segmentsOf s).length
    · rw [if_neg (by omega)] at hr
      cases hms : matchSegments (segmentsOf s) (segmentsOf p) [] 0 with
      | none => rw [hms] at hr; simp at hr
      | some v =>
        rw [hms] at hr
        have hr' : (⟨s, v.1, v.2⟩ : TryMatchResult) = r := by simpa using hr
        have hbind := matchSegments_params (segmentsOf s) (segmentsOf p) [] 0 v
          hms (by simp) hnodup
        constructor
        · rw [← hr']
        · rw [← hr']
          simpa using hbind
    · rw [if_pos (by omega)] at hr
      simp at hr
  · intro hall
    have hnil : T.filterMap (fun sp => tryMatch (cleanPath p₀) sp) = [] := by
      rw [List.filterMap_eq_nil_iff]
      intro t ht
      exact hall t ht
    calc matchPath p₀ T
        = (match (sortByScoreDesc
            (T.filterMap (fun sp => tryMatch (cleanPath p₀) sp))).head? with
          | none => none
          | some m => some (⟨m.specPath, m.params⟩ : PathMatchResult)) := rfl
      _ = none := by rw [hnil]; rfl

/-- Witness for C6: a parameterised template matched against a concrete path,
the verbatim binding, and none-propagation for an unmatched path. -/
theorem C6_tryMatch_characterization_witness :
    (∃ r, tryMatch "/pets/123".toList "/pets/{petId}".toList = some r) ∧
    ((⟨"/pets/{petId}".toList, [("petId".toList, "123".toList)], 11⟩
        : TryMatchResult).specPath = "/pets/{petId}".toList ∧
      (⟨"/pets/{petId}".toList, [("petId".toList, "123".toList)], 11⟩
        : TryMatchResult).params
        = ((segmentsOf "/pets/{petId}".toList).zip
            (segmentsOf "/pets/123".toList)).filterMap
            (fun pr => (paramName pr.1).map (fun n => (n, pr.2)))) ∧
    matchPath "/x".toList ["/pets".toList] = none := by
  refine ⟨?_, ?_, ?_⟩
  · exact (C6_tryMatch_characterization "/pets/123".toList "/pets/{petId}".toList
      "/x".toList ["/pets".toList]).1.mpr (by decide)
  · exact (C6_tryMatch_characterization "/pets/123".toList "/pets/{petId}".toList
      "/x".toList ["/pets".toList]).2.1
      ⟨"/pets/{petId}".toList, [("petId".toList, "123".toList)], 11⟩
      (by decide) (by decide)
  · exact (C6_tryMatch_characterization "/pets/123".toList "/pets/{petId}".toList
      "/x".toList ["/pets".toList]).2.2 (by decide)

/-! ## C7: normalisation invariance of matchPath -/

theorem splitChar_ne_nil (sep : Char) : ∀ s : Str, splitChar sep s ≠ []
  | [] => by simp [splitChar]
  | c :: rest => by
    simp only [splitChar]
    by_cases h : c = sep
    · simp [h]
    · simp [h]

theorem splitChar_append_sep (sep : Char) : ∀ s : Str,
    splitChar sep (s ++ [sep]) = splitChar sep s ++ [[]]
  | [] => by simp [splitChar]
  | c :: rest => by
    obtain ⟨x, t, hxt⟩ := List.exists_cons_of_ne_nil (splitChar_ne_nil sep rest)
    have IH := splitChar_append_sep sep rest
    by_cases h : c = sep
    · have e1 : splitChar sep ((c :: rest) ++ [sep])
          = [] :: splitChar sep (rest ++ [sep]) := by
        simp only [List.cons_append, splitChar, if_pos h]
        rfl
      have e2 : splitChar sep (c :: rest) = [] :: splitChar sep rest := by
        simp only [splitChar, if_pos h]
      rw [e1, e2, IH]
      simp
    · have e1 : splitChar sep ((c :: rest) ++ [sep])
          = (c :: (splitChar sep (rest ++ [sep])).headD [])
            :: (splitChar sep (rest ++ [sep])).tail := by
        simp only [List.cons_append, splitChar, if_neg h]
        rfl
      have e2 : splitChar sep (c :: rest)
          = (c :: (splitChar sep rest).headD []) :: (splitChar sep rest).tail := by
        simp only [splitChar, if_neg h]
      rw [e1, e2, IH, hxt]
      simp

theorem segmentsOf_concat_slash (s : Str) :
    segmentsOf (s ++ ['/']) = segmentsOf s := by
  unfold segmentsOf
  rw [splitChar_append_sep]
  simp

/-- `tryMatch` depends on the request path only through its segments. -/
theorem tryMatch_congr (p₁ p₂ s : Str) (h : segmentsOf p₁ = segmentsOf p₂) :
    tryMatch p₁ s = tryMatch p₂ s := by
  unfold tryMatch
  rw [h]

/-- `matchPath` depends on the observed path only through the segments of the
normalised path. -/
theorem matchPath_congr (p₁ p₂ : Str) (T : List Str)
    (h : segmentsOf (cleanPath p₁) = segmentsOf (cleanPath p₂)) :
    matchPath p₁ T = matchPath p₂ T := by
  have hfm : T.filterMap (fun sp => tryMatch (cleanPath p₁) sp)
      = T.filterMap (fun sp => tryMatch (cleanPath p₂) sp) := by
    apply List.filterMap_congr
    intro sp _
    exact tryMatch_congr _ _ sp h
  calc matchPath p₁ T
      = (match (sortByScoreDesc
          (T.filterMap (fun sp => tryMatch (cleanPath p₁) sp))).head? with
        | none => none
        | some m => some (⟨m.specPath, m.params⟩ : PathMatchResult)) := rfl
    _ = (match (sortByScoreDesc
          (T.filterMap (fun sp => tryMatch (cleanPath p₂) sp))).head? with
        | none => none
        | some m => some (⟨m.specPath, m.params⟩ : PathMatchResult)) := by rw [hfm]
    _ = matchPath p₂ T := rfl

/-- Splitting on the query marker is unaffected by appended text when the
prefix is free of `?`. -/
theorem takeWhile_notq_all (p s : Str) (hall : ∀ c ∈ p, c ≠ '?') :
    (p ++ s).takeWhile (fun c => c ≠ '?')
      = p ++ s.takeWhile (fun c => c ≠ '?') := by
  induction p with
  | nil => simp
  | cons c cs ih =>
    have hc : c ≠ '?' := hall c (by simp)
    have hdec : (decide (c ≠ '?')) = true := by simpa using hc
    rw [List.cons_append, List.takeWhile_cons, if_pos hdec,
      ih (fun x hx => hall x (List.mem_cons_of_mem c hx)), List.cons_append]

/-- When the prefix already contains `?`, appended text is invisible to the
query-stripping step. -/
theorem takeWhile_notq_mem (p s : Str) (hq : '?' ∈ p) :
    (p ++ s).takeWhile (fun c => c ≠ '?')
      = p.takeWhile (fun c => c ≠ '?') := by
  induction p with
  | nil => simp at hq
  | cons c cs ih =>
    by_cases h : c = '?'
    · have hdec : ¬ ((decide (c ≠ '?')) = true) := by simp [h]
      rw [List.cons_append, List.takeWhile_cons, List.takeWhile_cons,
        if_neg hdec, if_neg hdec]
    · have hq' : '?' ∈ cs := by
        rcases List.mem_cons.mp hq with h' | h'
        · exact absurd h'.symm h
        · exact h'
      have hdec : (decide (c ≠ '?')) = true := by simpa using h
      rw [List.cons_append, List.takeWhile_cons, List.takeWhile_cons,
        if_pos hdec, if_pos hdec, ih hq']

theorem takeWhile_notq_append_query (p q : Str) :
    (p ++ '?' :: q).takeWhile (fun c => c ≠ '?')
      = p.takeWhile (fun c => c ≠ '?') := by
  induction p with
  | nil => simp [List.takeWhile_cons]
  | cons c cs ih =>
    by_cases h : c = '?'
    · have hdec : ¬ ((decide (c ≠ '?')) = true) := by simp [h]
      rw [List.cons_append, List.takeWhile_cons, List.takeWhile_cons,
        if_neg hdec, if_neg hdec]
    · have hdec : (decide (c ≠ '?')) = true := by simpa using h
      rw [List.cons_append, List.takeWhile_cons, List.takeWhile_cons,
        if_pos hdec, if_pos hdec, ih]

theorem cleanPath_query (p q : Str) : cleanPath (p ++ '?' :: q) = cleanPath p := by
  unfold cleanPath
  rw [takeWhile_notq_append_query]

/-- Unfolding helper: cleanPath after substituting the query-stripped form. -/
theorem cleanPath_eq (s t : Str) (h : s.takeWhile (fun c => c ≠ '?') = t) :
    cleanPath s =
      if (if t.getLast? = some '/' then t.dropLast else t).isEmpty then ['/']
      else (if t.getLast? = some '/' then t.dropLast else t) := by
  unfold cleanPath
  rw [h]

theorem cleanPath_slash_segments (p : Str) :
    segmentsOf (cleanPath (p ++ ['/'])) = segmentsOf (cleanPath p) := by
  by_cases hq : '?' ∈ p
  · have hcp : cleanPath (p ++ ['/']) = cleanPath p := by
      unfold cleanPath
      rw [takeWhile_notq_mem p ['/'] hq]
    rw [hcp]
  · have hall : ∀ c ∈ p, c ≠ '?' := fun c hc h => hq (h ▸ hc)
    have hsl : (['/'] : Str).takeWhile (fun c => c ≠ '?') = ['/'] := by decide
    have ht1 : (p ++ ['/']).takeWhile (fun c => c ≠ '?') = p ++ ['/'] := by
      rw [takeWhile_notq_all p ['/'] hall, hsl]
    have ht2 : p.takeWhile (fun c => c ≠ '?') = p :=
      List.takeWhile_eq_self_iff.mpr (fun x hx => by simpa using hall x hx)
    have hcp1 : cleanPath (p ++ ['/']) = if p.isEmpty then ['/'] else p := by
      rw [cleanPath_eq (p ++ ['/']) (p ++ ['/']) ht1]
      have hl : (p ++ ['/']).getLast? = some '/' := List.getLast?_concat p
      rw [if_pos hl, List.dropLast_concat]
    rw [hcp1, cleanPath_eq p p ht2]
    by_cases hl : p.getLast? = some '/'
    · rw [if_pos hl]
      have hp_ne : p ≠ [] := by
        intro hnil
        rw [hnil] at hl
        simp at hl
      have hgl : p.getLast hp_ne = '/' := by
        have h2 := List.getLast?_eq_getLast p hp_ne
        rw [hl] at h2
        exact (Option.some_inj.mp h2).symm
      have hdecomp : p.dropLast ++ ['/'] = p := by
        have h3 := List.dropLast_concat_getLast hp_ne
        rwa [hgl] at h3
      rw [if_neg (fun he => hp_ne (List.isEmpty_iff.mp he))]
      by_cases hde : p.dropLast.isEmpty
      · rw [if_pos hde]
        have hdl : p.dropLast = [] := List.isEmpty_iff.mp hde
        rw [← hdecomp, hdl]
        rfl
      · rw [if_neg hde]
        nth_rewrite 1 [← hdecomp]
        exact segmentsOf_concat_slash p.dropLast
    · rw [if_neg hl]

/-- C7: matching is invariant under appending a query string or one trailing
slash to the observed path, and a lone slash normalises to `/`. -/
theorem C7_normalization_invariance (p q : Str) (T : List Str) :
    matchPath (p ++ '?' :: q) T = matchPath p T ∧
    matchPath (p ++ ['/']) T = matchPath p T ∧
    cleanPath ['/'] = ['/'] := by
  refine ⟨?_, ?_, by decide⟩
  · exact matchPath_congr _ _ T (by rw [cleanPath_query])
  · exact matchPath_congr _ _ T (cleanPath_slash_segments p)

/-! ## JSON-like runtime values

JavaScript runtime values are modelled by `Json`: plain JSON data plus `fn`,
a zero-argument accessor function returning its payload (needed for the
`typeof res.body === 'function'` case of the response parser).  JS numbers
are modelled as integers.  Objects are association lists in insertion order;
JS objects have unique keys, and lookup returns the first binding. -/

inductive Json where
  | null
  | bool (b : Bool)
  | num (n : Int)
  | str (s : Str)
  | arr (elems : List Json)
  | obj (fields : List (Str × Json))
  | fn (ret : Json)

/-- First-binding lookup in an object's fields (JS property access on own
string keys). -/
def lookupField : List (Str × Json) → Str → Option Json
  | [], _ => none
  | p :: rest, k => if p.1 = k then some p.2 else lookupField rest k

/-! ## Reference resolver (src/schema_builder.ts, resolveRefsInObject) -/

/-- JSON-pointer unescape, first pass: `segment.replace(/~1/g, '/')`. -/
def unescapeTilde1 : Str → Str
  | '~' :: '1' :: rest => '/' :: unescapeTilde1 rest
  | c :: rest => c :: unescapeTilde1 rest
  | [] => []

/-- JSON-pointer unescape, second pass: `.replace(/~0/g, '~')`. -/
def unescapeTilde0 : Str → Str
  | '~' :: '0' :: rest => '~' :: unescapeTilde0 rest
  | c :: rest => c :: unescapeTilde0 rest
  | [] => []

/-- Value of a decimal-numeral key (for the JS `in` operator on arrays):
canonical array indices only. -/
def decIndex? (k : Str) : Option Nat :=
  if !k.isEmpty && k.all Char.isDigit && (k = ['0'] || k.head? ≠ some '0')
  then some (k.foldl (fun acc c => acc * 10 + (c.toNat - '0'.toNat)) 0)
  else none

/-- One step of the pointer walk: `decoded in current` followed by
`current[decoded]`, failing on non-objects (and on `null`, which the JS
truthiness guard rejects). -/
def jsonIndex (j : Json) (k : Str) : Option Json :=
  match j with
  | .obj fields => lookupField fields k
  | .arr xs => (decIndex? k).bind (fun i => xs.get? i)
  | _ => none

/-- `resolveLocalRef(ref, root)` from src/schema_builder.ts: strip `#/`,
split on `/`, unescape `~1` then `~0`, and walk; `none` models the
`undefined` result when a segment is absent. -/
def resolveLocalRef (ref : Str) (root : Json) : Option Json :=
  let path := splitChar '/' (ref.drop 2)
  path.foldlM (fun current seg =>
    jsonIndex current (unescapeTilde0 (unescapeTilde1 seg))) root

/-- The key `"$ref"`. -/
def refKey : Str := '$' :: 'r' :: 'e' :: 'f' :: []

/-- Fields contributed by spreading an arbitrary value first in an object
literal (`{...v, ...rest}`): objects give their fields, arrays and strings
their indexed elements, primitives nothing. -/
def jsSpreadFields : Json → List (Str × Json)
  | .obj fields => fields
  | .arr xs => xs.enum.map (fun p => ((Nat.repr p.1).toList, p.2))
  | .str s => s.enum.map (fun p => ((Nat.repr p.1).toList, .str [p.2]))
  | _ => []

/-- Override one binding of the earlier spread with the later spread's value
for the same key, when present. -/
def overrideWith (b : List (Str × Json)) (p : Str × Json) : Str × Json :=
  match lookupField b p.1 with
  | some v => (p.1, v)
  | none => p

/-- The JS object literal `{...a, ...b}`: keys of `a` in order with values
overridden by same-keyed entries of `b`, followed by the keys only in `b`. -/
def jsSpread (a b : List (Str × Json)) : List (Str × Json) :=
  a.map (overrideWith b) ++ b.filter (fun q => !a.any (fun p => p.1 = q.1))

/-- `resolveRefsInObject(obj, root)` from src/schema_builder.ts.  The JS
recursion is unbounded (no cycle guard); `fuel` bounds the depth in the
model, and every theorem supplies enough fuel for its input. -/
def resolveRefs (root : Json) : Nat → Json → Json
  | 0, j => j
  | fuel + 1, j =>
    match j with
    | .arr xs => .arr (xs.map (resolveRefs root fuel))
    | .obj kvs =>
      match lookupField kvs refKey with
      | some (.str ref) =>
        if ['#', '/'].isPrefixOf ref then
          match resolveLocalRef ref root with
          | some resolved =>
            let rest := kvs.filter (fun p => p.1 ≠ refKey)
            if rest.isEmpty then resolveRefs root fuel resolved
            else .obj (jsSpread (jsSpreadFields (resolveRefs root fuel resolved)) rest)
          | none => .obj (kvs.map (fun p => (p.1, resolveRefs root fuel p.2)))
        else .obj (kvs.map (fun p => (p.1, resolveRefs root fuel p.2)))
      | _ => .obj (kvs.map (fun p => (p.1, resolveRefs root fuel p.2)))
    | j => j

mutual
/-- Does a value contain (at any depth) an object node whose `$ref` field is
a local `#/` reference? -/
def hasLocalRef : Json → Bool
  | .obj kvs =>
    (match lookupField kvs refKey with
      | some (.str ref) => ['#', '/'].isPrefixOf ref
      | _ => false) || hasLocalRefFields kvs
  | .arr xs => hasLocalRefElems xs
  | _ => false

def hasLocalRefFields : List (Str × Json) → Bool
  | [] => false
  | p :: rest => hasLocalRef p.2 || hasLocalRefFields rest

def hasLocalRefElems : List Json → Bool
  | [] => false
  | x :: rest => hasLocalRef x || hasLocalRefElems rest
end

/-! ## C4: reference resolution and sibling merge -/

theorem lookupField_append (a b : List (Str × Json)) (k : Str) :
    lookupField (a ++ b) k
      = (lookupField a k).orElse (fun _ => lookupField b k) := by
  induction a with
  | nil => simp [lookupField, Option.orElse]
  | cons p rest ih =>
    by_cases h : p.1 = k
    · simp [lookupField, h, Option.orElse]
    · simp only [List.cons_append, lookupField, if_neg h]
      exact ih

theorem lookupField_filter_congr (b : List (Str × Json))
    (pred₁ pred₂ : Str × Json → Bool) (k : Str)
    (h : ∀ q ∈ b, q.1 = k → pred₁ q = pred₂ q) :
    lookupField (b.filter pred₁) k = lookupField (b.filter pred₂) k := by
  induction b with
  | nil => rfl
  | cons q rest ih =>
    have ih' := ih (fun q' hq' => h q' (List.mem_cons_of_mem q hq'))
    by_cases hk : q.1 = k
    · have hpp : pred₁ q = pred₂ q := h q (List.mem_cons_self q rest) hk
      rw [List.filter_cons, List.filter_cons, hpp]
      cases hp : pred₂ q with
      | true => simp [lookupField, hk, ih']
      | false => simpa using ih'
    · rw [List.filter_cons, List.filter_cons]
      cases hp1 : pred₁ q <;> cases hp2 : pred₂ q <;>
        simp [lookupField, hk, ih']

theorem overrideWith_fst (b : List (Str × Json)) (p : Str × Json) :
    (overrideWith b p).1 = p.1 := by
  unfold overrideWith
  cases lookupField b p.1 <;> rfl

/-- Lookup in the JS spread `{...a, ...b}`: `b` (the later spread) takes
precedence, falling back to `a`. -/
theorem lookupField_jsSpread (a b : List (Str × Json)) (k : Str) :
    lookupField (jsSpread a b) k
      = (lookupField b k).orElse (fun _ => lookupField a k) := by
  induction a with
  | nil =>
    have hfil : b.filter
        (fun q => !List.any ([] : List (Str × Json)) (fun p => p.1 = q.1)) = b := by
      simp
    simp only [jsSpread, List.map_nil, List.nil_append, hfil]
    cases lookupField b k <;> simp [Option.orElse, lookupField]
  | cons p a' ih =>
    rw [show jsSpread (p :: a') b
        = overrideWith b p :: (a'.map (overrideWith b)
          ++ b.filter (fun q => !List.any (p :: a') (fun p' => p'.1 = q.1)))
        from rfl]
    by_cases hk : p.1 = k
    · rw [lookupField, if_pos (by rw [overrideWith_fst]; exact hk)]
      subst hk
      cases hb : lookupField b p.1 with
      | some v => simp [overrideWith, hb, Option.orElse]
      | none => simp [overrideWith, hb, Option.orElse, lookupField]
    · rw [lookupField, if_neg (by rw [overrideWith_fst]; exact hk)]
      have hfc : lookupField
          (b.filter (fun q => !List.any (p :: a') (fun p' => p'.1 = q.1))) k
          = lookupField
            (b.filter (fun q => !List.any a' (fun p' => p'.1 = q.1))) k := by
        apply lookupField_filter_congr
        intro q _ hqk
        rw [List.any_cons]
        rw [decide_eq_false (fun hh => hk (hh.trans hqk))]
        simp
      rw [lookupField_append, hfc, ← lookupField_append]
      rw [show a'.map (overrideWith b)
          ++ b.filter (fun q => !List.any a' (fun p' => p'.1 = q.1))
          = jsSpread a' b from rfl]
      rw [ih, lookupField, if_neg hk]

theorem lookupField_filter_ne_self (l : List (Str × Json)) (x : Str) :
    lookupField (l.filter (fun p => p.1 ≠ x)) x = none := by
  induction l with
  | nil => rfl
  | cons p rest ih =>
    by_cases h : p.1 = x
    · rw [List.filter_cons, if_neg (by simp [h])]
      exact ih
    · rw [List.filter_cons, if_pos (by simp [h])]
      rw [lookupField, if_neg h]
      exact ih

/-- Concrete document for C4: every local reference in it is resolvable. -/
def C4root : Json :=
  .obj [("defs".toList, .obj [
    ("a".toList, .obj [("t".toList, .num 1), ("d".toList, .str "orig".toList)]),
    ("b".toList, .num 2)])]

/-- Fields of a node whose `$ref` carries two siblings, one of which contains
a nested local `$ref`. -/
def C4kvs : List (Str × Json) :=
  [(refKey, .str "#/defs/a".toList),
   ("d".toList, .str "override".toList),
   ("x".toList, .obj [(refKey, .str "#/defs/b".toList)])]

/-- The target of `#/defs/a` in `C4root`. -/
def C4target : Json :=
  .obj [("t".toList, .num 1), ("d".toList, .str "orig".toList)]

/-- C4 counterexample: resolving a node whose `$ref` has a sibling whose
value itself contains a (resolvable) local `$ref` leaves that nested
reference unresolved, so resolution does not replace every local `$ref` and
does not reach a fixed point: the output still contains a local `$ref`,
which one further resolution pass removes. -/
theorem C4_counterexample :
    hasLocalRef (resolveRefs C4root 10 (.obj C4kvs)) = true ∧
    hasLocalRef (resolveRefs C4root 10 (resolveRefs C4root 10 (.obj C4kvs))) = false ∧
    resolveLocalRef "#/defs/b".toList C4root = some (.num 2) :=
  ⟨rfl, rfl, rfl⟩

/-- C4, amended: when an object node carries a local resolvable `$ref` with
sibling keys, the result of one resolution step is the shallow merge of the
fully-resolved target with the siblings taken verbatim (the siblings are not
themselves resolved), sibling keys taking precedence over same-named keys of
the resolved target, and the `$ref` key dropped from the sibling part; local
references nested inside sibling values survive unresolved (see the
counterexample). -/
theorem C4_sibling_merge (root : Json) (kvs : List (Str × Json)) (ref : Str)
    (target : Json) (fuel : Nat)
    (href : lookupField kvs refKey = some (.str ref))
    (hlocal : (['#', '/'] : Str).isPrefixOf ref = true)
    (hres : resolveLocalRef ref root = some target)
    (hrest : kvs.filter (fun p => p.1 ≠ refKey) ≠ []) :
    resolveRefs root (fuel + 1) (.obj kvs)
      = .obj (jsSpread (jsSpreadFields (resolveRefs root fuel target))
          (kvs.filter (fun p => p.1 ≠ refKey))) ∧
    (∀ k, lookupField (jsSpread (jsSpreadFields (resolveRefs root fuel target))
          (kvs.filter (fun p => p.1 ≠ refKey))) k
        = (lookupField (kvs.filter (fun p => p.1 ≠ refKey)) k).orElse
            (fun _ => lookupField (jsSpreadFields (resolveRefs root fuel target)) k)) ∧
    lookupField (kvs.filter (fun p => p.1 ≠ refKey)) refKey = none := by
  refine ⟨?_, fun k => lookupField_jsSpread _ _ k, lookupField_filter_ne_self _ _⟩
  obtain ⟨hd, tl, hcons⟩ := List.exists_cons_of_ne_nil hrest
  have hne : (kvs.filter (fun p => p.1 ≠ refKey)).isEmpty = false := by
    rw [hcons]
    rfl
  simp only [resolveRefs, href, hlocal, hres, hne, if_true, Bool.false_eq_true,
    if_false]

/-- Witness for the amended C4 theorem at the counterexample's document. -/
theorem C4_sibling_merge_witness :
    (resolveRefs C4root (9 + 1) (.obj C4kvs)
      = .obj (jsSpread (jsSpreadFields (resolveRefs C4root 9 C4target))
          (C4kvs.filter (fun p => p.1 ≠ refKey)))) ∧
    (lookupField (jsSpread (jsSpreadFields (resolveRefs C4root 9 C4target))
          (C4kvs.filter (fun p => p.1 ≠ refKey))) "d".toList
        = (lookupField (C4kvs.filter (fun p => p.1 ≠ refKey)) "d".toList).orElse
            (fun _ => lookupField (jsSpreadFields (resolveRefs C4root 9 C4target))
              "d".toList)) ∧
    lookupField (C4kvs.filter (fun p => p.1 ≠ refKey)) refKey = none :=
  have h := C4_sibling_merge C4root C4kvs "#/defs/a".toList C4target 9
    rfl rfl rfl
    (fun hnil => List.noConfusion
      ((show C4kvs.filter (fun p => p.1 ≠ refKey)
          = ("d".toList, Json.str "override".toList)
            :: [("x".toList, Json.obj [(refKey, Json.str "#/defs/b".toList)])]
        from rfl).symm.trans hnil))
  ⟨h.1, h.2.1 "d".toList, h.2.2⟩

/-! ## C10: brace segments with non-word characters are literals -/

theorem splitChar_not_mem (sep : Char) :
    ∀ s : Str, sep ∉ s → splitChar sep s = [s]
  | [], _ => rfl
  | c :: rest, h => by
    have hc : ¬ (c = sep) := fun e => h (e ▸ List.mem_cons_self c rest)
    have hr := splitChar_not_mem sep rest (fun m => h (List.mem_cons_of_mem c m))
    simp only [splitChar, if_neg hc, hr]
    rfl

theorem paramName_of_nonword (x : Str) (c : Char) (hc : c ∈ x)
    (hw : isWordChar c = false) :
    paramName ('{' :: (x ++ ['}'])) = none := by
  have hall : x.all isWordChar = false :=
    List.all_eq_false.mpr ⟨c, hc, by rw [hw]; exact Bool.false_ne_true⟩
  have hinner : ((('{' :: (x ++ ['}'])) : Str).drop 1).dropLast = x := by
    simp
  simp only [paramName, hinner, hall]
  simp

/-- C10: a template segment of the form `{X}` whose braced text contains a
non-word character (e.g. `{pet-id}`) is not recognised as a parameter: it is
treated as a literal, matching only an observed segment character-for-character
equal to the whole braced text, binding no parameter and scoring 10. -/
theorem C10_nonword_brace_is_literal (x o : Str) (c : Char)
    (hc : c ∈ x) (hw : isWordChar c = false)
    (ho : '/' ∉ o) (hx : '/' ∉ x) (hno : o ≠ []) :
    paramName ('{' :: (x ++ ['}'])) = none ∧
    matchSegments ['{' :: (x ++ ['}'])] [o] [] 0
      = (if ('{' :: (x ++ ['}']) : Str) = o then some ([], 10) else none) ∧
    tryMatch ('/' :: o) ('/' :: '{' :: (x ++ ['}']))
      = (if ('{' :: (x ++ ['}']) : Str) = o
          then some ⟨'/' :: '{' :: (x ++ ['}']), [], 10⟩ else none) := by
  have hpn := paramName_of_nonword x c hc hw
  have hms : matchSegments ['{' :: (x ++ ['}'])] [o] [] 0
      = (if ('{' :: (x ++ ['}']) : Str) = o then some ([], 10) else none) := by
    simp only [matchSegments, hpn]
  refine ⟨hpn, hms, ?_⟩
  have hsano : '/' ∉ ('{' :: (x ++ ['}']) : Str) := by
    intro hmem
    rcases List.mem_cons.mp hmem with h | h
    · exact absurd h.symm (by decide)
    · rcases List.mem_append.mp h with h' | h'
      · exact hx h'
      · rcases List.mem_singleton.mp h' with h''
        exact absurd h'' (by decide)
  have hsegs : segmentsOf ('/' :: '{' :: (x ++ ['}']))
      = ['{' :: (x ++ ['}'])] := by
    unfold segmentsOf
    rw [show ('/' :: '{' :: (x ++ ['}']) : Str)
      = '/' :: ('{' :: (x ++ ['}'])) from rfl]
    rw [show splitChar '/' ('/' :: ('{' :: (x ++ ['}'])))
      = [] :: splitChar '/' ('{' :: (x ++ ['}'])) by simp [splitChar]]
    rw [splitChar_not_mem '/' _ hsano]
    rfl
  have hsego : segmentsOf ('/' :: o) = [o] := by
    unfold segmentsOf
    rw [show splitChar '/' ('/' :: o) = [] :: splitChar '/' o by simp [splitChar]]
    rw [splitChar_not_mem '/' o ho]
    simp [List.isEmpty_iff, hno]
  unfold tryMatch
  rw [hsegs, hsego]
  rw [if_neg (by simp)]
  rw [hms]
  by_cases h : ('{' :: (x ++ ['}']) : Str) = o
  · rw [if_pos h, if_pos h]
    rfl
  · rw [if_neg h, if_neg h]
    rfl

/-- Witness for C10 at the template segment `{pet-id}`: it matches the
observed segment `{pet-id}` itself (binding nothing) and no parameter is
recognised. -/
theorem C10_nonword_brace_is_literal_witness :
    paramName ('{' :: ("pet-id".toList ++ ['}'])) = none ∧
    matchSegments ['{' :: ("pet-id".toList ++ ['}'])] ["{pet-id}".toList] [] 0
      = (if ('{' :: ("pet-id".toList ++ ['}']) : Str) = "{pet-id}".toList
          then some ([], 10) else none) ∧
    tryMatch ('/' :: "{pet-id}".toList)
        ('/' :: '{' :: ("pet-id".toList ++ ['}']))
      = (if ('{' :: ("pet-id".toList ++ ['}']) : Str) = "{pet-id}".toList
          then some ⟨'/' :: '{' :: ("pet-id".toList ++ ['}']), [], 10⟩
          else none) :=
  C10_nonword_brace_is_literal "pet-id".toList "{pet-id}".toList '-'
    (by decide) (by decide) (by decide) (by decide) (by decide)

/-! ## Coverage Tracker (coverage.ts) -/

structure CoverageEntry where
  route : Str
  method : Str
  statuses : List Str
deriving DecidableEq, Repr

structure CoverageRecord where
  route : Str
  method : Str
  status : Str
deriving DecidableEq, Repr

/-- The tracker's mutable fields: the registered universe and the covered
set.  The JS `Set<string>` is modelled as an insertion-ordered duplicate-free
list. -/
structure TrackerState where
  allEndpoints : List CoverageRecord
  covered : List Str
deriving DecidableEq, Repr

def initialTracker : TrackerState := ⟨[], []⟩

/-- `makeKey`: `${method.toUpperCase()}:${route}:${status}`. -/
def makeKey (route method status : Str) : Str :=
  method.map Char.toUpper ++ ':' :: (route ++ ':' :: status)

/-- `registerEndpoints(entries)`: expand each entry's status list into one
universe record per status, appending in order. -/
def registerEndpoints (st : TrackerState) (entries : List CoverageEntry) :
    TrackerState :=
  { st with allEndpoints := st.allEndpoints
      ++ (entries.map (fun e =>
            e.statuses.map (fun status => ⟨e.route, e.method, status⟩))).flatten }

/-- `recordCoverage(route, method, status)`: add the normalized key to the
covered set (set semantics — no duplicates). -/
def recordCoverage (st : TrackerState) (route method status : Str) :
    TrackerState :=
  let key := makeKey route method status
  { st with covered :=
      if key ∈ st.covered then st.covered else st.covered ++ [key] }

/-- `getUncovered()`: universe records whose key is not in the covered set. -/
def getUncovered (st : TrackerState) : List CoverageRecord :=
  st.allEndpoints.filter
    (fun e => !decide (makeKey e.route e.method e.status ∈ st.covered))

structure CoverageStats where
  total : Nat
  covered : Nat
  percentage : Nat
deriving DecidableEq, Repr

/-- `getStats()`: `Math.round(covered / total * 100)` over naturals, 100 when
the universe is empty. -/
def getStats (st : TrackerState) : CoverageStats :=
  let total := st.allEndpoints.length
  let covered := st.covered.length
  let percentage :=
    if total > 0 then (covered * 100 * 2 + total) / (total * 2) else 100
  ⟨total, covered, percentage⟩

/-- An interleaved run of the tracker's two mutating operations. -/
inductive TrackerOp where
  | register (entries : List CoverageEntry)
  | record (route method status : Str)
deriving DecidableEq, Repr

def applyOp (st : TrackerState) : TrackerOp → TrackerState
  | .register entries => registerEndpoints st entries
  | .record route method status => recordCoverage st route method status

def runOps (ops : List TrackerOp) : TrackerState :=
  ops.foldl applyOp initialTracker

/-- The key a `record` op adds (if any). -/
def opRecordKeys : TrackerOp → List Str
  | .register _ => []
  | .record route method status => [makeKey route method status]

/-- Keys of the registered universe. -/
def universeKeys (st : TrackerState) : List Str :=
  st.allEndpoints.map (fun e => makeKey e.route e.method e.status)

theorem covered_foldl_subset :
    ∀ (ops : List TrackerOp) (st : TrackerState),
    ∀ k ∈ (ops.foldl applyOp st).covered,
      k ∈ st.covered ∨ ∃ op ∈ ops, k ∈ opRecordKeys op
  | [], st, k, hk => Or.inl hk
  | op :: ops, st, k, hk => by
    rcases covered_foldl_subset ops (applyOp st op) k hk with h | ⟨op', hop', hk'⟩
    · cases op with
      | register entries => exact Or.inl h
      | record route method status =>
        simp only [applyOp, recordCoverage] at h
        by_cases hmem : makeKey route method status ∈ st.covered
        · rw [if_pos hmem] at h
          exact Or.inl h
        · rw [if_neg hmem] at h
          rcases List.mem_append.mp h with h' | h'
          · exact Or.inl h'
          · refine Or.inr ⟨.record route method status, List.mem_cons_self _ _, ?_⟩
            simpa [opRecordKeys] using h'
    · exact Or.inr ⟨op', List.mem_cons_of_mem op hop', hk'⟩

theorem covered_foldl_nodup :
    ∀ (ops : List TrackerOp) (st : TrackerState),
    st.covered.Nodup → (ops.foldl applyOp st).covered.Nodup
  | [], _, h => h
  | op :: ops, st, h => by
    apply covered_foldl_nodup ops (applyOp st op)
    cases op with
    | register entries => exact h
    | record route method status =>
      simp only [applyOp, recordCoverage]
      by_cases hmem : makeKey route method status ∈ st.covered
      · rw [if_pos hmem]
        exact h
      · rw [if_neg hmem]
        exact h.append (List.nodup_singleton _)
          (List.disjoint_singleton.mpr hmem)

/-- C2 counterexample: a single `recordCoverage` call with no registered
endpoints produces a covered set that is not a subset of the (empty)
universe, and `getStats().covered > getStats().total`. -/
theorem C2_counterexample :
    ¬ ((getStats (runOps [.record "/x".toList "GET".toList "200".toList])).covered
        ≤ (getStats (runOps [.record "/x".toList "GET".toList "200".toList])).total) ∧
    ¬ ((runOps [.record "/x".toList "GET".toList "200".toList]).covered
        ⊆ universeKeys (runOps [.record "/x".toList "GET".toList "200".toList])) := by
  constructor
  · decide
  · intro hsub
    have : makeKey "/x".toList "GET".toList "200".toList
        ∈ universeKeys (runOps [.record "/x".toList "GET".toList "200".toList]) :=
      hsub (by decide)
    simp [universeKeys, runOps, applyOp, initialTracker,
      recordCoverage, registerEndpoints] at this

/-- C2, amended: `recordCoverage` adds its key unconditionally, so the
covered set is a subset of the registered universe only under the hypothesis
that every recorded `(route, method, status)` matches a registered record;
under that hypothesis every covered key is a universe key and
`getStats().covered ≤ getStats().total`. -/
theorem C2_covered_subset_universe (ops : List TrackerOp)
    (h : ∀ op ∈ ops, ∀ k ∈ opRecordKeys op, k ∈ universeKeys (runOps ops)) :
    ((runOps ops).covered ⊆ universeKeys (runOps ops)) ∧
    (getStats (runOps ops)).covered ≤ (getStats (runOps ops)).total := by
  have hsub : (runOps ops).covered ⊆ universeKeys (runOps ops) := by
    intro k hk
    rcases covered_foldl_subset ops initialTracker k hk with h' | ⟨op, hop, hk'⟩
    · exact absurd h' (by simp [initialTracker])
    · exact h op hop k hk'
  refine ⟨hsub, ?_⟩
  have hnodup : (runOps ops).covered.Nodup :=
    covered_foldl_nodup ops initialTracker (by simp [initialTracker])
  have hlen : (runOps ops).covered.length ≤ (universeKeys (runOps ops)).length :=
    (hnodup.subperm hsub).length_le
  simpa [getStats, universeKeys] using hlen

/-- Witness for the amended C2 theorem: register `GET /pets` with statuses
200 and 404, record 200; covered (1) ≤ total (2). -/
theorem C2_covered_subset_universe_witness :
    ((runOps [.register [⟨"/pets".toList, "GET".toList,
        ["200".toList, "404".toList]⟩],
      .record "/pets".toList "GET".toList "200".toList]).covered
      ⊆ universeKeys (runOps [.register [⟨"/pets".toList, "GET".toList,
        ["200".toList, "404".toList]⟩],
      .record "/pets".toList "GET".toList "200".toList])) ∧
    (getStats (runOps [.register [⟨"/pets".toList, "GET".toList,
        ["200".toList, "404".toList]⟩],
      .record "/pets".toList "GET".toList "200".toList])).covered
      ≤ (getStats (runOps [.register [⟨"/pets".toList, "GET".toList,
        ["200".toList, "404".toList]⟩],
      .record "/pets".toList "GET".toList "200".toList])).total :=
  C2_covered_subset_universe _ (by decide)

/-! ## C9: only numeric status strings are ever recorded -/

theorem digitChar_isDigit (k : Nat) (hk : k < 10) :
    (Nat.digitChar k).isDigit = true := by
  interval_cases k <;> decide

theorem toDigitsCore_digits :
    ∀ (fuel n : Nat) (acc : List Char),
    (∀ ch ∈ acc, ch.isDigit = true) →
    ∀ ch ∈ Nat.toDigitsCore 10 fuel n acc, ch.isDigit = true
  | 0, n, acc, hacc => by
    simpa [Nat.toDigitsCore] using hacc
  | fuel + 1, n, acc, hacc => by
    have hd : (Nat.digitChar (n % 10)).isDigit = true :=
      digitChar_isDigit (n % 10) (Nat.mod_lt n (by decide))
    have hacc' : ∀ ch ∈ Nat.digitChar (n % 10) :: acc, ch.isDigit = true := by
      intro ch hch
      rcases List.mem_cons.mp hch with h | h
      · rw [h]; exact hd
      · exact hacc ch h
    by_cases h : n / 10 = 0
    · simp only [Nat.toDigitsCore, if_pos h]
      exact hacc'
    · simp only [Nat.toDigitsCore, if_neg h]
      exact toDigitsCore_digits fuel (n / 10) _ hacc'

theorem nat_repr_chars (n : Nat) :
    ∀ ch ∈ (Nat.repr n).toList, ch.isDigit = true := by
  intro ch hch
  exact toDigitsCore_digits (n + 1) n [] (by simp) ch hch

/-- Every character of `String(int)` is a decimal digit or a leading minus. -/
theorem int_repr_chars (n : Int) :
    ∀ ch ∈ (Int.repr n).toList, ch.isDigit = true ∨ ch = '-' := by
  intro ch hch
  cases n with
  | ofNat m =>
    exact Or.inl (nat_repr_chars m ch hch)
  | negSucc m =>
    have : (Int.repr (Int.negSucc m)).toList
        = '-' :: (Nat.repr (m + 1)).toList := rfl
    rw [this] at hch
    rcases List.mem_cons.mp hch with h | h
    · exact Or.inr h
    · exact Or.inl (nat_repr_chars (m + 1) ch h)

theorem int_repr_no_colon (n : Int) : ':' ∉ (Int.repr n).toList := by
  intro hmem
  rcases int_repr_chars n ':' hmem with h | h
  · exact absurd h (by decide)
  · exact absurd h (by decide)

/-- The suffix of a string after its last `:` (the status component of a
coverage key). -/
def lastColonSuffix (s : Str) : Str :=
  (s.reverse.takeWhile (fun c => c ≠ ':')).reverse

theorem takeWhile_ne_append (sep : Char) (p q : Str) :
    (p ++ sep :: q).takeWhile (fun c => c ≠ sep)
      = p.takeWhile (fun c => c ≠ sep) := by
  induction p with
  | nil =>
    rw [List.nil_append, List.takeWhile_cons,
      if_neg (by simp), List.takeWhile_nil]
  | cons c cs ih =>
    by_cases h : c = sep
    · have hdec : ¬ ((decide (c ≠ sep)) = true) := by simp [h]
      rw [List.cons_append, List.takeWhile_cons, List.takeWhile_cons,
        if_neg hdec, if_neg hdec]
    · have hdec : (decide (c ≠ sep)) = true := by simpa using h
      rw [List.cons_append, List.takeWhile_cons, List.takeWhile_cons,
        if_pos hdec, if_pos hdec, ih]

theorem lastColonSuffix_append (x y : Str) :
    lastColonSuffix (x ++ ':' :: y) = lastColonSuffix y := by
  unfold lastColonSuffix
  rw [List.reverse_append, List.reverse_cons, List.append_assoc,
    List.singleton_append, takeWhile_ne_append ':' y.reverse x.reverse]

theorem lastColonSuffix_no_colon (s : Str) (h : ':' ∉ s) :
    lastColonSuffix s = s := by
  unfold lastColonSuffix
  have hall : ∀ x ∈ s.reverse, (fun c => decide (c ≠ ':')) x = true := by
    intro x hx
    have hxs : x ∈ s := List.mem_reverse.mp hx
    simp only [decide_eq_true_eq]
    intro heq
    rw [heq] at hxs
    exact h hxs
  rw [List.takeWhile_eq_self_iff.mpr hall]
  exact List.reverse_reverse s

/-- The status component of a coverage key is recoverable when it contains
no colon. -/
theorem lastColonSuffix_makeKey (route method status : Str)
    (h : ':' ∉ status) :
    lastColonSuffix (makeKey route method status) = status := by
  unfold makeKey
  rw [lastColonSuffix_append, lastColonSuffix_append,
    lastColonSuffix_no_colon status h]

/-- C9: the coverage-recording step of `isValidResponse` always records the
key under `String(parsed.status)` — a decimal numeral — so a universe record
whose declared status contains any non-numeral character (such as `default`
or `4XX`) is never covered and stays in `getUncovered()` for the whole run. -/
theorem C9_nonnumeric_status_never_covered
    (entries : List CoverageEntry) (recs : List (Str × Str × Int))
    (e : CoverageRecord)
    (he : e ∈ (runOps (.register entries :: recs.map
        (fun t => .record t.1 t.2.1 (Int.repr t.2.2).toList))).allEndpoints)
    (hcolon : ':' ∉ e.status)
    (hbad : ∃ ch ∈ e.status, ¬(ch.isDigit = true ∨ ch = '-')) :
    e ∈ getUncovered (runOps (.register entries :: recs.map
        (fun t => .record t.1 t.2.1 (Int.repr t.2.2).toList))) := by
  apply List.mem_filter.mpr
  refine ⟨he, ?_⟩
  simp only [Bool.not_eq_true', decide_eq_false_iff_not]
  intro hkey
  rcases covered_foldl_subset _ initialTracker _ hkey with h' | ⟨op, hop, hk'⟩
  · simp [initialTracker] at h'
  · rcases List.mem_cons.mp hop with heq | hop'
    · rw [heq] at hk'
      simp [opRecordKeys] at hk'
    · obtain ⟨t, ht, hteq⟩ := List.mem_map.mp hop'
      rw [← hteq] at hk'
      simp only [opRecordKeys, List.mem_singleton] at hk'
      have h1 := congrArg lastColonSuffix hk'
      rw [lastColonSuffix_makeKey _ _ _ hcolon,
        lastColonSuffix_makeKey _ _ _ (int_repr_no_colon t.2.2)] at h1
      obtain ⟨ch, hch, hbadch⟩ := hbad
      rw [h1] at hch
      exact hbadch (int_repr_chars t.2.2 ch hch)

/-- Witness for C9: `GET /pets` declares statuses 200 and `default`;
an assertion records status 200; the `default` record stays uncovered. -/
theorem C9_nonnumeric_status_never_covered_witness :
    (⟨"/pets".toList, "get".toList, "default".toList⟩ : CoverageRecord)
      ∈ getUncovered (runOps (.register
          [⟨"/pets".toList, "get".toList, ["200".toList, "default".toList]⟩]
        :: [("/pets".toList, "GET".toList, (200 : Int))].map
          (fun t => .record t.1 t.2.1 (Int.repr t.2.2).toList))) :=
  C9_nonnumeric_status_never_covered
    [⟨"/pets".toList, "get".toList, ["200".toList, "default".toList]⟩]
    [("/pets".toList, "GET".toList, (200 : Int))]
    ⟨"/pets".toList, "get".toList, "default".toList⟩
    (by decide) (by decide) ⟨'d', by decide, by decide⟩

/-! ## Validator compiler (src/schema_builder.ts, buildPathValidators)

The AJV engine is an external collaborator (spec section 1); `compileSchema`
(ajv compilation of the sanitised schema, which either yields a validator or
throws) is abstracted as a function `compile : Json → Option V` into an
arbitrary validator type `V`, `none` modelling a thrown compilation error. -/

/-- JS truthiness. -/
def truthy : Json → Bool
  | .null => false
  | .bool b => b
  | .num n => n ≠ 0
  | .str s => !s.isEmpty
  | .arr _ => true
  | .obj _ => true
  | .fn _ => true

/-- Property access `x[k]` / `x?.[k]` for the string keys the source uses:
objects yield their own property, everything else `undefined` (`none`). -/
def getOpt (j : Json) (k : Str) : Option Json :=
  match j with
  | .obj fields => lookupField fields k
  | _ => none

/-- `Object.entries`, for the value kinds the source can meet. -/
def jsEntries : Json → List (Str × Json)
  | .obj fields => fields
  | .arr xs => xs.enum.map (fun p => ((Nat.repr p.1).toList, p.2))
  | .str s => s.enum.map (fun p => ((Nat.repr p.1).toList, .str [p.2]))
  | _ => []

/-- Generic association-list lookup (JS object property read). -/
def lookupAssoc {β : Type} : List (Str × β) → Str → Option β
  | [], _ => none
  | p :: rest, k => if p.1 = k then some p.2 else lookupAssoc rest k

/-- JS object property assignment as a functional update. -/
def setAssoc {β : Type} (m : List (Str × β)) (k : Str) (v : β) :
    List (Str × β) :=
  if m.any (fun p => p.1 = k)
  then m.map (fun p => if p.1 = k then (k, v) else p)
  else m ++ [(k, v)]

def contentKey : Str := "content".toList
def appJsonKey : Str := "application/json".toList
def schemaKey : Str := "schema".toList
def responsesKey : Str := "responses".toList
def pathsKey : Str := "paths".toList

structure StatusEntry (V : Type) where
  body : Option V
deriving DecidableEq, Repr

structure MethodValidators (V : Type) where
  responses : List (Str × StatusEntry V)
deriving DecidableEq, Repr

abbrev CompiledValidators (V : Type) :=
  List (Str × List (Str × MethodValidators V))

def HTTP_METHODS : List Str :=
  ["get".toList, "post".toList, "put".toList, "patch".toList,
   "delete".toList, "options".toList, "head".toList, "trace".toList]

/-- The inner status loop of `buildPathValidators`: for each declared
response, compile its `application/json` body schema if one is declared and
truthy; on a compilation failure ONLY a warning is emitted and NO entry is
created for that status code. -/
def buildStatuses {V : Type} (compile : Json → Option V) :
    List (Str × Json) → List (Str × StatusEntry V)
  | [] => []
  | (statusCode, response) :: rest =>
    let jsonContent := (getOpt response contentKey).bind
      (fun c => getOpt c appJsonKey)
    match jsonContent.bind (fun jc => getOpt jc schemaKey) with
    | some schema =>
      if truthy schema then
        match compile schema with
        | some v => (statusCode, ⟨some v⟩) :: buildStatuses compile rest
        | none => buildStatuses compile rest
      else (statusCode, ⟨none⟩) :: buildStatuses compile rest
    | none => (statusCode, ⟨none⟩) :: buildStatuses compile rest

/-- The method loop of `buildPathValidators` for one path item. -/
def buildMethods {V : Type} (compile : Json → Option V) (path : Str)
    (pathItem : Json) (mmap : List (Str × MethodValidators V))
    (cov : List CoverageEntry) :
    List (Str × MethodValidators V) × List CoverageEntry :=
  HTTP_METHODS.foldl (fun acc method =>
    match (getOpt pathItem method).bind (fun op => getOpt op responsesKey) with
    | some responses =>
      if truthy responses then
        let entriesR := jsEntries responses
        let mmap' := setAssoc acc.1 method ⟨buildStatuses compile entriesR⟩
        let statuses := entriesR.map Prod.fst
        if statuses.length > 0 then
          (mmap', acc.2 ++ [⟨path, method.map Char.toUpper, statuses⟩])
        else (mmap', acc.2)
      else acc
    | none => acc) (mmap, cov)

/-- `buildPathValidators(spec, validators, coverageEntries, ajv)` from
src/schema_builder.ts, as a functional update of the table. -/
def buildPathValidators {V : Type} (compile : Json → Option V) (spec : Json)
    (validators : CompiledValidators V) (coverageEntries : List CoverageEntry) :
    CompiledValidators V × List CoverageEntry :=
  match getOpt spec pathsKey with
  | some paths =>
    if truthy paths then
      (jsEntries paths).foldl (fun acc entry =>
        if truthy entry.2 then
          let pmap := (lookupAssoc acc.1 entry.1).getD []
          let (pmap', cov') := buildMethods compile entry.1 entry.2 pmap acc.2
          (setAssoc acc.1 entry.1 pmap', cov')
        else acc) (validators, coverageEntries)
    else (validators, coverageEntries)
  | none => (validators, coverageEntries)

/-- Observation: the status entry reachable in the built table for a given
(path, method, status). -/
def lookupStatus {V : Type} (tbl : CompiledValidators V)
    (path method status : Str) : Option (StatusEntry V) :=
  ((lookupAssoc tbl path).bind (fun mm => lookupAssoc mm method)).bind
    (fun mv => lookupAssoc mv.responses status)

/-- Responses map of the C1 scenario: status 200 declares a JSON body
schema, status 404 declares none. -/
def C1responses : List (Str × Json) :=
  [("200".toList, .obj [("content".toList, .obj [("application/json".toList,
      .obj [("schema".toList, .obj [("type".toList, .str "object".toList)])])])]),
   ("404".toList, .obj [("description".toList, .str "not found".toList)])]

/-- A one-path one-method spec declaring the C1 responses. -/
def C1spec : Json :=
  .obj [("openapi".toList, .str "3.1.0".toList),
    ("paths".toList, .obj [("/a".toList, .obj [("get".toList,
      .obj [("responses".toList, .obj C1responses)])])])]

/-- C1 counterexample: with a compiler that throws on the 200 schema, the
built table contains NO entry at all for ("/a", "get", "200") — not an entry
without a body validator — and the exact/default/wildcard lookups for status
200 all fail, while the 404 entry and the coverage statuses (still listing
200) are built. -/
theorem C1_counterexample :
    lookupStatus (buildPathValidators (V := Unit) (fun _ => none)
      C1spec [] []).1 "/a".toList "get".toList "200".toList = none ∧
    lookupStatus (buildPathValidators (V := Unit) (fun _ => none)
      C1spec [] []).1 "/a".toList "get".toList "default".toList = none ∧
    lookupStatus (buildPathValidators (V := Unit) (fun _ => none)
      C1spec [] []).1 "/a".toList "get".toList "2XX".toList = none ∧
    lookupStatus (buildPathValidators (V := Unit) (fun _ => none)
      C1spec [] []).1 "/a".toList "get".toList "404".toList = some ⟨none⟩ ∧
    (buildPathValidators (V := Unit) (fun _ => none) C1spec [] []).2
      = [⟨"/a".toList, "GET".toList, ["200".toList, "404".toList]⟩] := by
  decide

theorem buildStatuses_keys {V : Type} (compile : Json → Option V) :
    ∀ (responses : List (Str × Json)) (sc : Str),
    sc ∉ responses.map Prod.fst →
    lookupAssoc (buildStatuses compile responses) sc = none
  | [], _, _ => rfl
  | (k, resp) :: rest, sc, h => by
    rw [List.map_cons] at h
    have h1 : ¬ (k = sc) := fun e => h (e ▸ List.mem_cons_self _ _)
    have h2 : sc ∉ rest.map Prod.fst := fun m => h (List.mem_cons_of_mem _ m)
    have ih := buildStatuses_keys compile rest sc h2
    cases hjs : ((getOpt resp contentKey).bind
        (fun c => getOpt c appJsonKey)).bind
        (fun jc => getOpt jc schemaKey) with
    | none =>
      simp [buildStatuses, hjs, lookupAssoc, h1, ih]
    | some schema =>
      by_cases ht : truthy schema
      · cases hc : compile schema with
        | some v =>
          simp [buildStatuses, hjs, ht, hc, lookupAssoc, h1, ih]
        | none =>
          simp [buildStatuses, hjs, ht, hc, ih]
      · simp [buildStatuses, hjs, ht, lookupAssoc, h1, ih]

/-- C1, amended: a compilation failure is non-fatal but the failing
(status) entry is OMITTED from the built table rather than kept without a
body validator; every other status entry is built as usual (no body
validator when no truthy JSON schema is declared, a body validator on
compile success); so an exact lookup of the failed status finds nothing. -/
theorem C1_failed_compile_entry_omitted {V : Type} (compile : Json → Option V)
    (responses : List (Str × Json))
    (hnodup : (responses.map Prod.fst).Nodup) (sc : Str) :
    lookupAssoc (buildStatuses compile responses) sc
      = (lookupAssoc responses sc).bind (fun resp =>
          match ((getOpt resp contentKey).bind
              (fun c => getOpt c appJsonKey)).bind
              (fun jc => getOpt jc schemaKey) with
          | some schema =>
            if truthy schema then (compile schema).map (fun v => ⟨some v⟩)
            else some ⟨none⟩
          | none => some ⟨none⟩) := by
  induction responses with
  | nil => rfl
  | cons hd rest ih =>
    obtain ⟨k, resp⟩ := hd
    rw [List.map_cons, List.nodup_cons] at hnodup
    obtain ⟨hknotin, hnd⟩ := hnodup
    by_cases hks : k = sc
    · subst hks
      cases hjs : ((getOpt resp contentKey).bind
          (fun c => getOpt c appJsonKey)).bind
          (fun jc => getOpt jc schemaKey) with
      | none =>
        simp [buildStatuses, hjs, lookupAssoc]
      | some schema =>
        by_cases ht : truthy schema
        · cases hc : compile schema with
          | some v =>
            simp [buildStatuses, hjs, ht, hc, lookupAssoc]
          | none =>
            simp [buildStatuses, hjs, ht, hc, lookupAssoc,
              buildStatuses_keys compile rest k hknotin]
        · simp [buildStatuses, hjs, ht, lookupAssoc]
    · cases hjs : ((getOpt resp contentKey).bind
          (fun c => getOpt c appJsonKey)).bind
          (fun jc => getOpt jc schemaKey) with
      | none =>
        simp [buildStatuses, hjs, lookupAssoc, hks, ih hnd]
      | some schema =>
        by_cases ht : truthy schema
        · cases hc : compile schema with
          | some v =>
            simp [buildStatuses, hjs, ht, hc, lookupAssoc, hks, ih hnd]
          | none =>
            simp [buildStatuses, hjs, ht, hc, lookupAssoc, hks, ih hnd]
        · simp [buildStatuses, hjs, ht, lookupAssoc, hks, ih hnd]

/-- Witness for the amended C1 theorem: with an always-failing compiler,
status 200 (schema declared) is omitted and status 404 (no schema) keeps an
entry without a body validator. -/
theorem C1_failed_compile_entry_omitted_witness :
    (lookupAssoc (buildStatuses (V := Unit) (fun _ => none) C1responses)
        "200".toList
      = (lookupAssoc C1responses "200".toList).bind (fun resp =>
          match ((getOpt resp contentKey).bind
              (fun c => getOpt c appJsonKey)).bind
              (fun jc => getOpt jc schemaKey) with
          | some schema =>
            if truthy schema then ((fun _ => none) schema).map
              (fun v => (⟨some v⟩ : StatusEntry Unit))
            else some ⟨none⟩
          | none => some ⟨none⟩)) ∧
    (lookupAssoc (buildStatuses (V := Unit) (fun _ => none) C1responses)
        "404".toList
      = (lookupAssoc C1responses "404".toList).bind (fun resp =>
          match ((getOpt resp contentKey).bind
              (fun c => getOpt c appJsonKey)).bind
              (fun jc => getOpt jc schemaKey) with
          | some schema =>
            if truthy schema then ((fun _ => none) schema).map
              (fun v => (⟨some v⟩ : StatusEntry Unit))
            else some ⟨none⟩
          | none => some ⟨none⟩)) :=
  ⟨C1_failed_compile_entry_omitted (fun _ => none) C1responses (by decide)
      "200".toList,
    C1_failed_compile_entry_omitted (fun _ => none) C1responses (by decide)
      "404".toList⟩

/-! ## Response normalizer and validation engine (response_validator.ts) -/

/-- `typeof x === 'object'` (true for objects, arrays and `null`). -/
def isObjectType : Json → Bool
  | .obj _ => true
  | .arr _ => true
  | .null => true
  | _ => false

/-- JS `a || b` on a possibly-undefined value. -/
def jsOr (a : Option Json) (b : Json) : Json :=
  match a with
  | some v => if truthy v then v else b
  | none => b

/-- JS `a || b` keeping undefined alive (for chained `||` reads). -/
def jsOrOpt (a b : Option Json) : Option Json :=
  match a with
  | some v => if truthy v then some v else b
  | none => b

mutual
/-- `String(x)` for the value kinds the source can meet.  Array elements
stringify recursively (`null` elements as the empty string); objects as
`[object Object]`; a function value is modelled by a fixed placeholder. -/
def jsToString : Json → Str
  | .str s => s
  | .num n => (Int.repr n).toList
  | .bool true => "true".toList
  | .bool false => "false".toList
  | .null => "null".toList
  | .arr xs => jsToStringElems xs
  | .obj _ => "[object Object]".toList
  | .fn _ => "function".toList

def jsToStringElems : List Json → Str
  | [] => []
  | [x] => (match x with | .null => [] | x => jsToString x)
  | x :: rest =>
    (match x with | .null => [] | x => jsToString x) ++ ',' :: jsToStringElems rest
end

/-- `Number(x)` restricted to integer results; `none` models `NaN` (which
`|| 0` later maps to 0).  String numerals are parsed as optionally-signed
decimal integers after trimming spaces; non-integer numerals are modelled
as `NaN`. -/
def jsToNumber : Json → Option Int
  | .num n => some n
  | .bool true => some 1
  | .bool false => some 0
  | .null => some 0
  | .str s =>
    let t := (s.dropWhile (fun c => c = ' ')).reverse.dropWhile
      (fun c => c = ' ') |>.reverse
    if t.isEmpty then some 0
    else
      let (sign, digits) : Int × Str :=
        match t with
        | '-' :: rest => (-1, rest)
        | '+' :: rest => (1, rest)
        | _ => (1, t)
      if !digits.isEmpty && digits.all Char.isDigit then
        some (sign * (digits.foldl
          (fun acc c => acc * 10 + ((c.toNat : Int) - ('0'.toNat : Int))) 0))
      else none
  | .arr [] => some 0
  | .arr [x] => jsToNumber x
  | .arr _ => none
  | .obj _ => none
  | .fn _ => none

/-- `Number(x) || 0`. -/
def jsNum0 (v : Json) : Int := (jsToNumber v).getD 0

/-- `Number(x) || 0` where `x` may be undefined (`Number(undefined)` is
`NaN`). -/
def jsNum0Opt (o : Option Json) : Int :=
  match o with
  | some v => jsNum0 v
  | none => 0

def typeErrorMsg : Str :=
  "TypeError: cannot read properties of null or call a non-function".toList

/-- Property access `base.k` where `base` may be undefined (`none`) or
`null`, in which case JS throws a TypeError. -/
def propAccess (base : Option Json) (k : Str) : Except Str (Option Json) :=
  match base with
  | none => .error typeErrorMsg
  | some .null => .error typeErrorMsg
  | some j => .ok (getOpt j k)

/-- Pathname of an absolute http(s) URL, as WHATWG `new URL(u).pathname`
behaves on well-formed URLs: drop scheme and authority, keep the path up to
the query or fragment, defaulting to `/`. -/
def urlPathname (url : Str) : Str :=
  let afterScheme :=
    if "http://".toList.isPrefixOf url then url.drop 7 else url.drop 8
  let p := (afterScheme.dropWhile (fun c => c ≠ '/')).takeWhile
    (fun c => c ≠ '?' && c ≠ '#')
  if p.isEmpty then ['/'] else p

/-- `extractPath(url)` from response_validator.ts (string argument). -/
def extractPath (url : Str) : Str :=
  if "http://".toList.isPrefixOf url || "https://".toList.isPrefixOf url
  then urlPathname url
  else url.takeWhile (fun c => c ≠ '?')

/-- `extractPath` applied to a JS value: a non-string receiver makes
`url.startsWith` (and the `url.split` in the catch) throw. -/
def extractPathJs (v : Json) : Except Str Str :=
  match v with
  | .str s => .ok (extractPath s)
  | _ => .error typeErrorMsg

/-- `normalizeHeaders`: lower-case the keys and `String()` the values. -/
def normalizeHeaders (h : Json) : List (Str × Str) :=
  (jsEntries h).map (fun p => (p.1.map Char.toLower, jsToString p.2))

structure ParsedResponse where
  method : Str
  path : Str
  status : Int
  headers : List (Str × Str)
  body : Option Json

def invalidResponseMsg : Str := "Invalid response: expected an object".toList

def unknownFormatMsg : Str :=
  "Unknown response format: could not extract method, path, status, or body".toList

def responseKey : Str := "response".toList
def requestKey : Str := "request".toList
def statusCodeKey : Str := "statusCode".toList
def dataKey : Str := "data".toList
def configKey : Str := "config".toList
def statusKey : Str := "status".toList
def bodyKey : Str := "body".toList
def reqKey : Str := "req".toList
def headersKey : Str := "headers".toList
def urlKey : Str := "url".toList
def pathKey : Str := "path".toList
def methodKey : Str := "method".toList

/-- `k in res` for the string keys the parser probes (own properties;
arrays and strings have none of these keys). -/
def hasKey (res : Json) (k : Str) : Bool :=
  (getOpt res k).isSome

/-- Shapes 2–5 of `parseResponse` (everything after the wrapper-unwrapping
step), in the source's priority order, ending in the
`Unknown response format` throw; thrown TypeErrors propagate. -/
def parseShapes (res : Json) : Except Str ParsedResponse :=
  if hasKey res requestKey && hasKey res statusCodeKey then
    match propAccess (getOpt res requestKey) methodKey with
    | .error e => .error e
    | .ok m =>
      match propAccess (getOpt res requestKey) urlKey with
      | .error e => .error e
      | .ok u =>
        match extractPathJs (jsOr u (.str "/".toList)) with
        | .error e => .error e
        | .ok pth =>
          .ok ⟨(jsToString (jsOr m (.str "GET".toList))).map Char.toUpper,
            pth,
            jsNum0Opt (getOpt res statusCodeKey),
            normalizeHeaders (jsOr (getOpt res headersKey) (.obj [])),
            match getOpt res bodyKey with
            | some (.fn ret) => some ret
            | some v => some v
            | none => none⟩
  else if hasKey res dataKey && hasKey res configKey && hasKey res statusKey
  then
    match propAccess (getOpt res configKey) methodKey with
    | .error e => .error e
    | .ok m =>
      match propAccess (getOpt res configKey) urlKey with
      | .error e => .error e
      | .ok u =>
        match extractPathJs (jsOr u (.str "/".toList)) with
        | .error e => .error e
        | .ok pth =>
          .ok ⟨(jsToString (jsOr m (.str "GET".toList))).map Char.toUpper,
            pth,
            jsNum0Opt (getOpt res statusKey),
            normalizeHeaders (jsOr (getOpt res headersKey) (.obj [])),
            getOpt res dataKey⟩
  else if hasKey res bodyKey && hasKey res reqKey && hasKey res statusCodeKey
  then
    match propAccess (getOpt res reqKey) methodKey with
    | .error e => .error e
    | .ok m =>
      match propAccess (getOpt res reqKey) pathKey with
      | .error e => .error e
      | .ok p2 =>
        match extractPathJs (jsOr p2 (.str "/".toList)) with
        | .error e => .error e
        | .ok pth =>
          .ok ⟨(jsToString (jsOr m (.str "GET".toList))).map Char.toUpper,
            pth,
            jsNum0Opt (getOpt res statusCodeKey),
            normalizeHeaders (jsOr (getOpt res headersKey) (.obj [])),
            getOpt res bodyKey⟩
  else if hasKey res statusKey || hasKey res statusCodeKey then
    match extractPathJs
      (jsOr (jsOrOpt (getOpt res urlKey) (getOpt res pathKey))
        (.str "/".toList)) with
    | .error e => .error e
    | .ok pth =>
      .ok ⟨(jsToString (jsOr (getOpt res methodKey)
          (.str "GET".toList))).map Char.toUpper,
        pth,
        jsNum0Opt (jsOrOpt (getOpt res statusKey) (getOpt res statusCodeKey)),
        normalizeHeaders (jsOr (getOpt res headersKey) (.obj [])),
        some (match getOpt res bodyKey with
          | some .null =>
            (match getOpt res dataKey with
              | some .null => Json.null
              | some v => v
              | none => Json.null)
          | some v => v
          | none =>
            (match getOpt res dataKey with
              | some .null => Json.null
              | some v => v
              | none => Json.null))⟩
  else .error unknownFormatMsg

mutual
/-- `parseResponse(response)` from response_validator.ts: non-objects are
rejected, a truthy object `response` property is unwrapped recursively, and
otherwise the shape dispatch (`parseShapes`) runs on the object itself. -/
def parseResponse : Json → Except Str ParsedResponse
  | .obj fields => parseWrap fields fields
  | .arr xs => parseShapes (.arr xs)
  | _ => .error invalidResponseMsg

/-- The wrapper-unwrapping step: find the first `response` binding; when its
value is a truthy object, recurse into it, otherwise run the shape dispatch
on the whole object. -/
def parseWrap : List (Str × Json) → List (Str × Json) →
    Except Str ParsedResponse
  | [], whole => parseShapes (.obj whole)
  | (k, v) :: rest, whole =>
    if k = responseKey then
      if truthy v && isObjectType v then parseResponse v
      else parseShapes (.obj whole)
    else parseWrap rest whole
end

example : parseResponse (.obj [(responseKey, .obj [])])
    = .error unknownFormatMsg := rfl

example : parseResponse (.num 3) = .error invalidResponseMsg := rfl

example : parseResponse (.obj [(statusKey, .num 404),
    (urlKey, .str "/pets?x=1".toList), (methodKey, .str "get".toList)])
    = .ok ⟨"GET".toList, "/pets".toList, 404, [], some .null⟩ := rfl

/-- An error object produced by a compiled AJV validator. -/
structure AjvError where
  instancePath : Str
  message : Option Str
  keyword : Str
  params : Json

/-- A compiled AJV body validator: `fn` is the compiled check, `errs` the
`errors` property observed after a failing call (`none` models a null or
undefined errors array). -/
structure BodyValidator where
  fn : Option Json → Bool
  errs : Option Json → Option (List AjvError)

inductive ErrVal where
  | str (s : Str)
  | strs (ss : List Str)
  | json (j : Json)

structure ValidationError where
  path : Str
  message : Str
  keyword : Option Str
  expected : Option ErrVal
  actual : Option ErrVal

structure ValidationResult where
  valid : Bool
  errors : Option (List ValidationError)

/-- `getValueAtPath(obj, path)` from response_validator.ts, on a possibly
undefined body. -/
def getValueAtPath (body : Option Json) (path : Str) : Option Json :=
  if path.isEmpty then body
  else match body with
    | some (.obj fs) =>
      ((splitChar '/' path).filter (fun t => !t.isEmpty)).foldl
        (fun cur part =>
          match cur with
          | some (.obj fs') => lookupField fs' part
          | some (.arr xs) => (decIndex? part).bind (fun i => xs.get? i)
          | _ => none) (some (.obj fs))
    | some (.arr xs) =>
      ((splitChar '/' path).filter (fun t => !t.isEmpty)).foldl
        (fun cur part =>
          match cur with
          | some (.obj fs') => lookupField fs' part
          | some (.arr xs') => (decIndex? part).bind (fun i => xs'.get? i)
          | _ => none) (some (.arr xs))
    | _ => none

/-- `err.message || 'Validation failed'`. -/
def jsOrStr (o : Option Str) (dflt : Str) : Str :=
  match o with
  | some s => if s.isEmpty then dflt else s
  | none => dflt

/-- The body-validation tail of `validateResponse`: run the body validator
when one exists; shape AJV errors; absence of a body validator (or of an
errors array after a failing call) yields `valid: true`. -/
def checkBody (entry : StatusEntry BodyValidator) (body : Option Json) :
    ValidationResult :=
  match entry.body with
  | some bv =>
    if bv.fn body then ⟨true, none⟩
    else match bv.errs body with
      | some errList =>
        ⟨false, some (errList.map (fun err =>
          ⟨err.instancePath,
            jsOrStr err.message "Validation failed".toList,
            some err.keyword,
            some (.json err.params),
            (getValueAtPath body err.instancePath).map .json⟩))⟩
      | none => ⟨true, none⟩
  | none => ⟨true, none⟩

def defaultKey : Str := "default".toList

/-- The wildcard key `${statusCode[0]}XX`. -/
def wildcardOf (statusCode : Str) : Str := statusCode.take 1 ++ "XX".toList

def noMatchMsg (method path : Str) : Str :=
  "No matching path found in OpenAPI spec for ".toList ++ method ++ ' ' :: path

def noMethodMsg (method matched : Str) : Str :=
  "No ".toList ++ method ++ " operation defined for ".toList ++ matched

def noSchemaMsg (method matched statusCode : Str) : Str :=
  "No response schema defined for ".toList ++ method ++ ' ' :: matched
    ++ " with status ".toList ++ statusCode

/-- `validateResponse(response, validators)` from response_validator.ts.
The parser's thrown errors propagate (`Except.error`). -/
def validateResponse (response : Json)
    (validators : CompiledValidators BodyValidator) :
    Except Str ValidationResult :=
  match parseResponse response with
  | .error e => .error e
  | .ok parsed =>
    let specPaths := validators.map Prod.fst
    match matchPath parsed.path specPaths with
    | none => .ok ⟨false, some [⟨[], noMatchMsg parsed.method parsed.path,
        none, some (.strs specPaths), some (.str parsed.path)⟩]⟩
    | some pathMatch =>
      let method := parsed.method.map Char.toLower
      let statusCode := (Int.repr parsed.status).toList
      match (lookupAssoc validators pathMatch.matched).bind
          (fun mm => lookupAssoc mm method) with
      | none => .ok ⟨false, some [⟨[],
          noMethodMsg parsed.method pathMatch.matched,
          none, none, some (.str method)⟩]⟩
      | some pathValidators =>
        match (lookupAssoc pathValidators.responses statusCode).orElse
            (fun _ => (lookupAssoc pathValidators.responses defaultKey).orElse
              (fun _ => lookupAssoc pathValidators.responses
                (wildcardOf statusCode))) with
        | none => .ok ⟨false, some [⟨[],
            noSchemaMsg parsed.method pathMatch.matched statusCode,
            none, some (.strs (pathValidators.responses.map Prod.fst)),
            some (.str statusCode)⟩]⟩
        | some responseValidator => .ok (checkBody responseValidator parsed.body)

/-- C3: for a response whose path and method are matched, the status entry
used for validation is chosen by trying the exact numeric status string,
then `default`, then the first-digit wildcard, in that order; when none of
the three exists, the result is invalid with a "no response schema defined"
message whose expected field lists the declared status codes. -/
theorem C3_status_lookup_priority
    (response : Json) (validators : CompiledValidators BodyValidator)
    (parsed : ParsedResponse) (pm : PathMatchResult)
    (pv : MethodValidators BodyValidator)
    (hp : parseResponse response = .ok parsed)
    (hm : matchPath parsed.path (validators.map Prod.fst) = some pm)
    (hpv : (lookupAssoc validators pm.matched).bind
        (fun mm => lookupAssoc mm (parsed.method.map Char.toLower)) = some pv) :
    (∀ e, lookupAssoc pv.responses (Int.repr parsed.status).toList = some e →
      validateResponse response validators = .ok (checkBody e parsed.body)) ∧
    (lookupAssoc pv.responses (Int.repr parsed.status).toList = none →
      ∀ e, lookupAssoc pv.responses defaultKey = some e →
      validateResponse response validators = .ok (checkBody e parsed.body)) ∧
    (lookupAssoc pv.responses (Int.repr parsed.status).toList = none →
      lookupAssoc pv.responses defaultKey = none →
      ∀ e, lookupAssoc pv.responses
          (wildcardOf (Int.repr parsed.status).toList) = some e →
      validateResponse response validators = .ok (checkBody e parsed.body)) ∧
    (lookupAssoc pv.responses (Int.repr parsed.status).toList = none →
      lookupAssoc pv.responses defaultKey = none →
      lookupAssoc pv.responses
          (wildcardOf (Int.repr parsed.status).toList) = none →
      validateResponse response validators = .ok ⟨false, some [⟨[],
        noSchemaMsg parsed.method pm.matched (Int.repr parsed.status).toList,
        none, some (.strs (pv.responses.map Prod.fst)),
        some (.str (Int.repr parsed.status).toList)⟩]⟩) := by
  refine ⟨?_, ?_, ?_, ?_⟩
  · intro e he
    simp only [validateResponse, hp, hm, hpv, he, Option.orElse]
  · intro hx e he
    simp only [validateResponse, hp, hm, hpv, hx, he, Option.orElse]
  · intro hx hd e he
    simp only [validateResponse, hp, hm, hpv, hx, hd, he, Option.orElse]
  · intro hx hd hw
    simp only [validateResponse, hp, hm, hpv, hx, hd, hw, Option.orElse]

/-- Validator table for the C3 witness: `GET /pets` declares only the `4XX`
wildcard status. -/
def C3validators : CompiledValidators BodyValidator :=
  [("/pets".toList, [("get".toList, ⟨[("4XX".toList, ⟨none⟩)]⟩)])]

/-- A generic-shape 404 response to `/pets` for the C3 witness. -/
def C3response : Json :=
  .obj [(statusKey, .num 404), (urlKey, .str "/pets".toList),
    (methodKey, .str "GET".toList)]

/-- Witness for C3: a 404 response against a table declaring only `4XX`
resolves through the wildcard fallback. -/
theorem C3_status_lookup_priority_witness :
    validateResponse C3response C3validators
      = .ok (checkBody ⟨none⟩ (some .null)) :=
  (C3_status_lookup_priority C3response C3validators
    ⟨"GET".toList, "/pets".toList, 404, [], some .null⟩
    ⟨"/pets".toList, []⟩ ⟨[("4XX".toList, ⟨none⟩)]⟩
    rfl rfl rfl).2.2.1 rfl rfl ⟨none⟩ rfl

/-! ## C8: parseResponse error behaviour -/

/-- C8 counterexample: `{response: {}}` matches the first recognized shape
(a truthy-object `response` property), yet `parseResponse` throws after
unwrapping because the inner object matches no shape. -/
theorem C8_counterexample :
    (hasKey (.obj [(responseKey, .obj [])]) responseKey = true ∧
      truthy (.obj ([] : List (Str × Json))) = true ∧
      isObjectType (.obj ([] : List (Str × Json))) = true) ∧
    parseResponse (.obj [(responseKey, .obj [])]) = .error unknownFormatMsg :=
  ⟨⟨rfl, rfl, rfl⟩, rfl⟩

theorem parseWrap_no_unwrap :
    ∀ (fields whole : List (Str × Json)),
    (∀ r, lookupField fields responseKey = some r →
      (truthy r && isObjectType r) = false) →
    parseWrap fields whole = parseShapes (.obj whole)
  | [], _, _ => rfl
  | (k, v) :: rest, whole, h => by
    by_cases hk : k = responseKey
    · have hv := h v (by rw [lookupField, if_pos hk])
      simp only [parseWrap, if_pos hk, hv]
      simp
    · simp only [parseWrap, if_neg hk]
      exact parseWrap_no_unwrap rest whole
        (fun r hr => h r (by rw [lookupField, if_neg hk]; exact hr))

theorem parseWrap_unwrap :
    ∀ (fields whole : List (Str × Json)) (r : Json),
    lookupField fields responseKey = some r →
    (truthy r && isObjectType r) = true →
    parseWrap fields whole = parseResponse r
  | [], _, r, hr, _ => by simp [lookupField] at hr
  | (k, v) :: rest, whole, r, hr, htr => by
    rw [lookupField] at hr
    by_cases hk : k = responseKey
    · rw [if_pos hk] at hr
      simp only [Option.some.injEq] at hr
      subst hr
      simp only [parseWrap, if_pos hk, htr, if_true]
    · rw [if_neg hk] at hr
      simp only [parseWrap, if_neg hk]
      exact parseWrap_unwrap rest whole r hr htr

theorem propAccess_some_of_ne_null (j : Json) (h : j ≠ .null) (k : Str) :
    propAccess (some j) k = .ok (getOpt j k) := by
  cases j with
  | null => exact absurd rfl h
  | bool b => rfl
  | num n => rfl
  | str s => rfl
  | arr xs => rfl
  | obj fs => rfl
  | fn f => rfl

/-- C8, amended: `parseResponse` rejects non-objects with the input error;
a truthy-object `response` property is unwrapped recursively, and the
result is that of parsing the wrapped value — which can itself be the
"unknown format" error, so a wrapper shape alone does not guarantee
success; an object matching none of the remaining shapes throws the
"unknown format" error; and an object matching the api-client shape with a
non-null `request` and a string (or absent/falsy) `request.url` parses
successfully. -/
theorem C8_parse_error_characterization
    (v r : Json) (fields : List (Str × Json)) (req : Json) :
    ((truthy v && isObjectType v) = false →
      parseResponse v = .error invalidResponseMsg) ∧
    (lookupField fields responseKey = some r →
      (truthy r && isObjectType r) = true →
      parseResponse (.obj fields) = parseResponse r) ∧
    ((∀ r', lookupField fields responseKey = some r' →
        (truthy r' && isObjectType r') = false) →
      hasKey (.obj fields) statusKey = false →
      hasKey (.obj fields) statusCodeKey = false →
      parseResponse (.obj fields) = .error unknownFormatMsg) ∧
    ((∀ r', lookupField fields responseKey = some r' →
        (truthy r' && isObjectType r') = false) →
      getOpt (.obj fields) requestKey = some req →
      req ≠ .null →
      hasKey (.obj fields) statusCodeKey = true →
      (∃ s, jsOr (getOpt req urlKey) (.str "/".toList) = .str s) →
      ∃ pr, parseResponse (.obj fields) = .ok pr) := by
  refine ⟨?_, ?_, ?_, ?_⟩
  · intro h
    cases v with
    | null => rfl
    | bool b => rfl
    | num n => rfl
    | str s => rfl
    | fn f => rfl
    | obj fs => simp [truthy, isObjectType] at h
    | arr xs => simp [truthy, isObjectType] at h
  · intro hr htr
    show parseWrap fields fields = parseResponse r
    exact parseWrap_unwrap fields fields r hr htr
  · intro hno hs hsc
    show parseWrap fields fields = .error unknownFormatMsg
    rw [parseWrap_no_unwrap fields fields hno]
    have h2 : (hasKey (.obj fields) requestKey
        && hasKey (.obj fields) statusCodeKey) = false := by
      rw [hsc, Bool.and_false]
    have h5 : (hasKey (.obj fields) statusKey
        || hasKey (.obj fields) statusCodeKey) = false := by
      rw [hs, hsc, Bool.or_false]
    simp [parseShapes, h2, hsc, hs, h5]
  · intro hno hreq hnn hsc hurl
    show ∃ pr, parseWrap fields fields = .ok pr
    rw [parseWrap_no_unwrap fields fields hno]
    have h2 : (hasKey (.obj fields) requestKey
        && hasKey (.obj fields) statusCodeKey) = true := by
      rw [hsc, Bool.and_true, hasKey, hreq]
      rfl
    obtain ⟨s, hs⟩ := hurl
    simp only [parseShapes, h2, if_true, hreq,
      propAccess_some_of_ne_null req hnn, hs, extractPathJs]
    exact ⟨_, rfl⟩

/-- Witness for C8 at concrete inputs: the number `3` is rejected with the
input error, a `{response: {status: 200}}` wrapper is unwrapped, the empty
object throws the unknown-format error, and an api-client-shaped object
with a string url parses successfully. -/
theorem C8_parse_error_characterization_witness :
    parseResponse (.num 3) = .error invalidResponseMsg ∧
    parseResponse (.obj [(responseKey, .obj [(statusKey, .num 200)])])
      = parseResponse (.obj [(statusKey, .num 200)]) ∧
    parseResponse (.obj ([] : List (Str × Json))) = .error unknownFormatMsg ∧
    ∃ pr, parseResponse (.obj [(requestKey, .obj [(urlKey, .str "/x".toList)]),
        (statusCodeKey, .num 200)]) = .ok pr := by
  refine ⟨?_, ?_, ?_, ?_⟩
  · exact (C8_parse_error_characterization (.num 3) .null [] .null).1 rfl
  · exact (C8_parse_error_characterization .null (.obj [(statusKey, .num 200)])
      [(responseKey, .obj [(statusKey, .num 200)])] .null).2.1 rfl rfl
  · exact (C8_parse_error_characterization .null .null [] .null).2.2.1
      (fun _ h => Option.noConfusion h) rfl rfl
  · exact (C8_parse_error_characterization .null .null
      [(requestKey, .obj [(urlKey, .str "/x".toList)]),
        (statusCodeKey, .num 200)]
      (.obj [(urlKey, .str "/x".toList)])).2.2.2
      (fun _ h => Option.noConfusion h)
      rfl (fun h => Json.noConfusion h) rfl ⟨"/x".toList, rfl⟩
